import Mathlib

/-!
Shallow embedding of the browser-gopher core (Go) for specification checking.

Source files embedded:
- `pkg/persistence/persistence.go` (schema `initSql`, `GetLatestTime`,
  `InsertUrl`, `InsertVisit`, `UrlsById`) and the `search` package
  (`SearchUrls`);
- `cmd/populate.go` (`populateCmd` sync loop);
- `pkg/extractors/extractors.go` (`BuildExtractorList`).

The store is a SQLite database; we model each table as a list of rows in
physical scan order (SQLite rowid order: fresh rows are appended, `INSERT OR
REPLACE` deletes every row conflicting on any unique constraint and appends
the new row with a fresh rowid, `INSERT OR IGNORE` no-ops when a unique
constraint would be violated).  `util.HashMd5String` is not under `src/`, so
the md5 digest is a function parameter `hash` throughout; no property of it
is assumed.
-/

namespace BrowserGopher

/-- `types.UrlRow`: an extractor-produced URL record handed to `InsertUrl`.
`lastVisit` models the `*time.Time` field as Unix seconds (`none` = nil). -/
structure UrlRow where
  url : String
  title : Option String
  description : Option String
  lastVisit : Option Int
  deriving Repr, DecidableEq

/-- A row of the `urls` table as created by `initSql`: columns
`url_md5, url, title, description, last_visit` with `url_md5` PRIMARY KEY
and `url` UNIQUE.  `last_visit` is the stored INTEGER. -/
structure UrlsTableRow where
  urlMd5 : String
  url : String
  title : Option String
  description : Option String
  lastVisit : Int
  deriving Repr, DecidableEq

/-- `types.VisitRow`: an extractor-produced visit handed to `InsertVisit`. -/
structure VisitRow where
  url : String
  datetime : Int
  extractorName : String
  deriving Repr, DecidableEq

/-- A row of the `visits` table: columns `url_md5, visit_time,
extractor_name`, with the unique index `visits_unique` on
`(url_md5, visit_time)` declared in `initSql`. -/
structure VisitsTableRow where
  urlMd5 : String
  visitTime : Int
  extractorName : String
  deriving Repr, DecidableEq

/-- The persistent store: the `urls` and `visits` tables of `initSql`, each
as its list of rows in rowid (scan) order.  (`urls_meta` is not needed by
any claim.) -/
structure Store where
  urls : List UrlsTableRow
  visits : List VisitsTableRow
  deriving Repr, DecidableEq

/-- The freshly initialized store (`InitDb` on a new file). -/
def emptyStore : Store := ⟨[], []⟩

/-- `InsertUrl`'s encoding of the Go `*time.Time` field: `var lastVisit
int64` stays `0` when `row.LastVisit == nil`, else `row.LastVisit.Unix()`. -/
def encodeLastVisit : Option Int → Int
  | none => 0
  | some t => t

/-- `UrlsById`'s decoding of the stored `last_visit` integer: `if ts != 0`
the entity's `LastVisit` is set, otherwise it stays nil. -/
def decodeLastVisit (ts : Int) : Option Int :=
  if ts ≠ 0 then some ts else none

/-- A `urls` row conflicts with an incoming `(url_md5, url)` pair when it
collides on the PRIMARY KEY `url_md5` or on the UNIQUE column `url`
(`INSERT OR REPLACE` deletes all such rows). -/
def urlConflict (md5 url : String) (r : UrlsTableRow) : Bool :=
  r.urlMd5 == md5 || r.url == url

/-- `persistence.InsertUrl`: `INSERT OR REPLACE INTO urls(url_md5, url,
title, description, last_visit) VALUES(?, ?, ?, ?, ?)` with
`md5 = util.HashMd5String(row.Url)` and the `lastVisit` encoding above. -/
def insertUrl (hash : String → String) (s : Store) (row : UrlRow) : Store :=
  let md5 := hash row.url
  let newRow : UrlsTableRow :=
    ⟨md5, row.url, row.title, row.description, encodeLastVisit row.lastVisit⟩
  { s with urls := (s.urls.filter fun r => !urlConflict md5 row.url r) ++ [newRow] }

/-- `persistence.InsertVisit`: `INSERT OR IGNORE INTO visits(url_md5,
visit_time, extractor_name) VALUES(?, ?, ?)`; the unique index
`visits_unique(url_md5, visit_time)` makes the insert a no-op when a row
with the same `(url_md5, visit_time)` already exists. -/
def insertVisit (hash : String → String) (s : Store) (row : VisitRow) : Store :=
  let md5 := hash row.url
  if s.visits.any fun v => v.urlMd5 == md5 && v.visitTime == row.datetime then s
  else { s with visits := s.visits ++ [⟨md5, row.datetime, row.extractorName⟩] }

/-- Number of stored visit rows for a given `url_md5`. -/
def countVisitRows (s : Store) (md5 : String) : Nat :=
  (s.visits.filter fun v => v.urlMd5 == md5).length

/-- Inserting a visit with the same URL and timestamp as one already stored
is a no-op, whatever the extractor name. -/
theorem insertVisit_noop_of_same_key (hash : String → String) (s : Store)
    (url : String) (t : Int) (e : String)
    (h : (s.visits.any fun v => v.urlMd5 == hash url && v.visitTime == t) = true) :
    insertVisit hash s ⟨url, t, e⟩ = s := by
  simp [insertVisit, h]

/-- `C1`: inserting two visit events with the same URL and the same visit
timestamp leaves exactly one stored visit row — the second insert is a
no-op on the whole store, whatever the two extractor names — while two
visit events with the same URL but different timestamps both persist:
from the fresh store they leave two stored rows for that URL. -/
theorem insertVisit_dedup_by_url_and_time (hash : String → String)
    (url : String) (t u : Int) (e1 e2 : String) :
    (∀ s : Store,
        insertVisit hash (insertVisit hash s ⟨url, t, e1⟩) ⟨url, t, e2⟩ =
          insertVisit hash s ⟨url, t, e1⟩) ∧
    countVisitRows
        (insertVisit hash (insertVisit hash emptyStore ⟨url, t, e1⟩) ⟨url, t, e2⟩)
        (hash url) = 1 ∧
    (t ≠ u →
      countVisitRows
        (insertVisit hash (insertVisit hash emptyStore ⟨url, t, e1⟩) ⟨url, u, e2⟩)
        (hash url) = 2) := by
  refine ⟨?_, ?_, ?_⟩
  · intro s
    apply insertVisit_noop_of_same_key
    by_cases h : (s.visits.any fun v => v.urlMd5 == hash url && v.visitTime == t) = true
    · simp [insertVisit, h]
    · simp only [insertVisit, h]
      simp
  · have hnoop : insertVisit hash (insertVisit hash emptyStore ⟨url, t, e1⟩) ⟨url, t, e2⟩ =
        insertVisit hash emptyStore ⟨url, t, e1⟩ := by
      apply insertVisit_noop_of_same_key
      simp [insertVisit, emptyStore]
    rw [hnoop]
    simp [insertVisit, emptyStore, countVisitRows]
  · intro hne
    have h1 : insertVisit hash emptyStore ⟨url, t, e1⟩ =
        ⟨[], [⟨hash url, t, e1⟩]⟩ := by
      simp [insertVisit, emptyStore]
    rw [h1]
    have h2 : (insertVisit hash (⟨[], [⟨hash url, t, e1⟩]⟩ : Store) ⟨url, u, e2⟩) =
        ⟨[], [⟨hash url, t, e1⟩, ⟨hash url, u, e2⟩]⟩ := by
      simp [insertVisit]
      intro hut
      exact absurd hut hne
    rw [h2]
    simp [countVisitRows]

/-- Witness for `C1`: concrete duplicate and non-duplicate visit inserts. -/
theorem insertVisit_dedup_witness :
    countVisitRows
      (insertVisit id (insertVisit id emptyStore ⟨"u", 5, "chrome"⟩) ⟨"u", 7, "safari"⟩)
      "u" = 2 := by
  have h := insertVisit_dedup_by_url_and_time id "u" 5 7 "chrome" "safari"
  exact h.2.2 (by decide)

/-- Number of stored `urls` rows holding a given `url` value. -/
def countUrlRows (s : Store) (u : String) : Nat :=
  (s.urls.filter fun r => r.url == u).length

/-- Rows surviving the `INSERT OR REPLACE` conflict deletion collide with
the incoming row on neither `url_md5` nor `url`. -/
theorem mem_filterConflict (md5 url : String) (l : List UrlsTableRow)
    (r : UrlsTableRow) (h : r ∈ l.filter fun x => !urlConflict md5 url x) :
    (r.urlMd5 == md5) = false ∧ (r.url == url) = false := by
  have := List.of_mem_filter h
  simpa [urlConflict] using this

/-- `C5`: `InsertUrl` is idempotent — writing the same `UrlRow` twice
leaves the `urls` table exactly as writing it once — the written `url`
value occupies exactly one stored row afterwards, and the per-`url`
uniqueness invariant of the schema is preserved by every write. -/
theorem insertUrl_idempotent_and_unique (hash : String → String) (s : Store)
    (row : UrlRow) :
    insertUrl hash (insertUrl hash s row) row = insertUrl hash s row ∧
    countUrlRows (insertUrl hash s row) row.url = 1 ∧
    ((∀ u, countUrlRows s u ≤ 1) → ∀ u, countUrlRows (insertUrl hash s row) u ≤ 1) := by
  refine ⟨?_, ?_, ?_⟩
  · simp [insertUrl, List.filter_append, List.filter_filter, urlConflict]
  · have hnil : (s.urls.filter fun r => !urlConflict (hash row.url) row.url r).filter
        (fun r => r.url == row.url) = [] := by
      rw [List.filter_eq_nil_iff]
      intro r hr
      simp [(mem_filterConflict _ _ _ _ hr).2]
    simp [countUrlRows, insertUrl, List.filter_append, hnil]
  · intro hinv u
    by_cases hu : row.url = u
    · subst hu
      have hnil : (s.urls.filter fun r => !urlConflict (hash row.url) row.url r).filter
          (fun r => r.url == row.url) = [] := by
        rw [List.filter_eq_nil_iff]
        intro r hr
        simp [(mem_filterConflict _ _ _ _ hr).2]
      simp [countUrlRows, insertUrl, List.filter_append, hnil]
    · have hsub : ((s.urls.filter fun r => !urlConflict (hash row.url) row.url r).filter
          (fun r => r.url == u)).length ≤ (s.urls.filter fun r => r.url == u).length :=
        List.Sublist.length_le (List.Sublist.filter _ (List.filter_sublist _))
      have hnew : ((row.url : String) == u) = false := by
        simpa using hu
      calc countUrlRows (insertUrl hash s row) u
          = ((s.urls.filter fun r => !urlConflict (hash row.url) row.url r).filter
              (fun r => r.url == u)).length := by
            simp [countUrlRows, insertUrl, List.filter_append, hnew]
        _ ≤ (s.urls.filter fun r => r.url == u).length := hsub
        _ ≤ 1 := hinv u

/-- Witness for `C5`: the uniqueness invariant instantiated on a concrete
store and row. -/
theorem insertUrl_idempotent_witness :
    countUrlRows (insertUrl id emptyStore ⟨"u", none, none, none⟩) "u" = 1 ∧
    ∀ u, countUrlRows (insertUrl id emptyStore ⟨"u", none, none, none⟩) u ≤ 1 := by
  have h := insertUrl_idempotent_and_unique id emptyStore ⟨"u", none, none, none⟩
  exact ⟨h.2.1, h.2.2 (by intro u; simp [countUrlRows, emptyStore])⟩

/-- The stored `last_visit` integer for a given `url_md5`, read off the
`urls` table (the table holds at most one row per `url_md5`). -/
def storedLastVisit (s : Store) (md5 : String) : Option Int :=
  (s.urls.find? fun r => r.urlMd5 == md5).map (·.lastVisit)

/-- The first row matching a given `url_md5` in a conflict-filtered table
with the fresh row appended is the fresh row itself. -/
theorem find?_filterConflict_append (md5 url : String) (new : UrlsTableRow)
    (hmd5 : new.urlMd5 = md5) (l : List UrlsTableRow) :
    ((l.filter fun r => !urlConflict md5 url r) ++ [new]).find?
      (fun r => r.urlMd5 == md5) = some new := by
  induction l with
  | nil => simp [List.find?, hmd5]
  | cons a l ih =>
    by_cases ha : urlConflict md5 url a
    · simpa [List.filter_cons, ha] using ih
    · have hmd : (a.urlMd5 == md5) = false := by
        simp only [urlConflict, Bool.or_eq_true] at ha
        simp only [Bool.eq_false_iff]
        intro hc
        exact ha (Or.inl hc)
      rw [List.filter_cons_of_pos (by simp [ha]), List.cons_append]
      simpa [List.find?, hmd] using ih

/-- After `InsertUrl`, looking up the written `url_md5` finds exactly the
freshly inserted row. -/
theorem find?_after_insertUrl (hash : String → String) (s : Store) (row : UrlRow) :
    (insertUrl hash s row).urls.find? (fun r => r.urlMd5 == hash row.url) =
      some ⟨hash row.url, row.url, row.title, row.description,
        encodeLastVisit row.lastVisit⟩ :=
  find?_filterConflict_append (hash row.url) row.url _ rfl s.urls

/-- `C3` counterexample: a URL stored with `last_visit = 100` is
overwritten by an `InsertUrl` carrying `last_visit = 50`; the stored
timestamp regresses from `100` to `50`. -/
theorem insertUrl_lastVisit_regression :
    storedLastVisit (insertUrl id emptyStore ⟨"u", none, none, some 100⟩) "u" = some 100 ∧
    storedLastVisit
        (insertUrl id (insertUrl id emptyStore ⟨"u", none, none, some 100⟩)
          ⟨"u", none, none, some 50⟩) "u" = some 50 ∧
    (50 : Int) < 100 := by
  refine ⟨?_, ?_, by decide⟩ <;> decide

/-- `C3` amended: `InsertUrl` is last-writer-wins on `last_visit` — after
the write the stored integer equals the incoming row's encoded value
(`0` when absent), regardless of what was stored before; it is not
monotonically advanced and may regress. -/
theorem insertUrl_lastVisit_lastWriterWins (hash : String → String) (s : Store)
    (row : UrlRow) :
    storedLastVisit (insertUrl hash s row) (hash row.url) =
      some (encodeLastVisit row.lastVisit) := by
  simp [storedLastVisit, find?_after_insertUrl hash s row]

/-- `types.UrlDbEntity` as scanned back by `UrlsById`: `LastVisit` is nil
unless the stored integer is non-zero. -/
structure UrlDbEntity where
  urlMd5 : String
  url : String
  title : Option String
  description : Option String
  lastVisit : Option Int
  deriving Repr, DecidableEq

/-- How `UrlsById` scans one `urls` row into a `UrlDbEntity`: all columns
verbatim, `last_visit` through `decodeLastVisit` (`if ts != 0`). -/
def hydrateUrlRow (r : UrlsTableRow) : UrlDbEntity :=
  ⟨r.urlMd5, r.url, r.title, r.description, decodeLastVisit r.lastVisit⟩

/-- Code-point-wise lexicographic comparison of two key strings, the order
in which SQLite's primary-key index stores and probes text keys (md5 hex
digests are plain ASCII, where BINARY collation is this order). -/
def charListLe : List Char → List Char → Bool
  | [], _ => true
  | _ :: _, [] => false
  | a :: as, b :: bs =>
    if a.val < b.val then true
    else if b.val < a.val then false
    else charListLe as bs

/-- Key order of the `url_md5` primary-key index. -/
def md5Le (x y : String) : Bool :=
  charListLe x.data y.data

/-- Insert a row into a key-ordered row list. -/
def insertSorted (r : UrlsTableRow) : List UrlsTableRow → List UrlsTableRow
  | [] => [r]
  | x :: xs => if md5Le r.urlMd5 x.urlMd5 then r :: x :: xs else x :: insertSorted r xs

/-- Rows in ascending `url_md5` key order: how the primary-key index
visits the matching rows of an `IN` probe. -/
def sortByMd5 : List UrlsTableRow → List UrlsTableRow
  | [] => []
  | x :: xs => insertSorted x (sortByMd5 xs)

/-- `persistence.UrlsById`: `SELECT url_md5, url, title, description,
last_visit FROM urls WHERE url_md5 IN (?, …, ?)` with one placeholder per
requested id (SQLite evaluates the empty `IN ()` list as always-false).
The query has no ORDER BY: rows come back in the `url_md5` primary-key
index probe order, ascending by key, independent of the order of the
requested ids. -/
def urlsById (s : Store) (ids : List String) : List UrlDbEntity :=
  (sortByMd5 (s.urls.filter fun r => ids.contains r.urlMd5)).map hydrateUrlRow

/-- `search.SearchUrls`: collects `result.Hits` ids in the index's rank
order, hydrates them via `persistence.UrlsById`, and returns that list
unchanged in `URLQueryResult.Urls`.  The ranked id list stands in for the
opaque bleve result. -/
def searchUrls (s : Store) (hitIds : List String) : List UrlDbEntity :=
  urlsById s hitIds

/-- Key-ordered insertion preserves membership. -/
theorem mem_insertSorted (r a : UrlsTableRow) (l : List UrlsTableRow) :
    a ∈ insertSorted r l ↔ a = r ∨ a ∈ l := by
  induction l with
  | nil => simp [insertSorted]
  | cons x xs ih =>
    rw [show insertSorted r (x :: xs) =
        if md5Le r.urlMd5 x.urlMd5 then r :: x :: xs else x :: insertSorted r xs from rfl]
    by_cases hle : md5Le r.urlMd5 x.urlMd5 = true
    · rw [if_pos hle]
      simp [List.mem_cons]
    · rw [if_neg hle]
      simp only [List.mem_cons, ih]
      tauto

/-- Key ordering preserves membership. -/
theorem mem_sortByMd5 (a : UrlsTableRow) (l : List UrlsTableRow) :
    a ∈ sortByMd5 l ↔ a ∈ l := by
  induction l with
  | nil => simp [sortByMd5]
  | cons x xs ih =>
    simp [sortByMd5, mem_insertSorted, ih, List.mem_cons]

/-- An entity is in `UrlsById`'s result iff it is the hydration of a
stored row whose `url_md5` was requested. -/
theorem mem_urlsById (s : Store) (ids : List String) (e : UrlDbEntity) :
    e ∈ urlsById s ids ↔ ∃ r, r ∈ s.urls ∧ r.urlMd5 ∈ ids ∧ e = hydrateUrlRow r := by
  simp only [urlsById, List.mem_map, mem_sortByMd5, List.mem_filter, List.elem_iff]
  constructor
  · rintro ⟨r, ⟨hr, hid⟩, rfl⟩
    exact ⟨r, hr, hid, rfl⟩
  · rintro ⟨r, hr, hid, rfl⟩
    exact ⟨r, ⟨hr, hid⟩, rfl⟩

/-- `C8`: `UrlsById` returns exactly the subset of the requested ids that
exist in the store — the empty request yields the empty result, and an
entity is returned iff it is the hydration of a stored row whose
`url_md5` was requested. -/
theorem urlsById_exact_subset (s : Store) (ids : List String) :
    urlsById s [] = [] ∧
    ∀ e, e ∈ urlsById s ids ↔ ∃ r, r ∈ s.urls ∧ r.urlMd5 ∈ ids ∧ e = hydrateUrlRow r := by
  constructor
  · simp [urlsById, sortByMd5]
  · exact fun e => mem_urlsById s ids e

/-- Concrete `urls` rows used to exercise the read path. -/
def rowA : UrlsTableRow := ⟨"a", "http-one", none, none, 0⟩

def rowB : UrlsTableRow := ⟨"b", "http-two", none, none, 0⟩

/-- A store whose `urls` table holds `rowA` before `rowB` in scan order. -/
def demoStore : Store := ⟨[rowA, rowB], []⟩

/-- Witness for `C8`: a stored row whose id is requested is returned. -/
theorem urlsById_exact_subset_witness :
    hydrateUrlRow rowA ∈ urlsById demoStore ["zz", "a"] :=
  ((urlsById_exact_subset demoStore ["zz", "a"]).2 (hydrateUrlRow rowA)).mpr
    ⟨rowA, by decide, by decide, rfl⟩

/-- `C10`: `InsertUrl` stores an absent last-visit as the integer `0` and
`UrlsById` decodes a stored `0` back to an absent timestamp: reading back
the written URL hydrates `last_visit` through `decodeLastVisit ∘
encodeLastVisit`, whose result is absent iff the stored integer is `0`;
consequently a visit exactly at the Unix epoch (`Unix() == 0`) is written
identically to no visit at all — the two stores are equal. -/
theorem insertUrl_lastVisit_zero_roundtrip (hash : String → String) (s : Store)
    (row : UrlRow) :
    urlsById (insertUrl hash s row) [hash row.url] =
      [⟨hash row.url, row.url, row.title, row.description,
        decodeLastVisit (encodeLastVisit row.lastVisit)⟩] ∧
    (∀ e ∈ urlsById (insertUrl hash s row) [hash row.url],
      (e.lastVisit = none ↔ encodeLastVisit row.lastVisit = 0)) ∧
    insertUrl hash s { row with lastVisit := some 0 } =
      insertUrl hash s { row with lastVisit := none } := by
  have hfilter : ((s.urls.filter fun r => !urlConflict (hash row.url) row.url r) ++
      [(⟨hash row.url, row.url, row.title, row.description,
        encodeLastVisit row.lastVisit⟩ : UrlsTableRow)]).filter
        (fun r => [hash row.url].contains r.urlMd5) =
      [⟨hash row.url, row.url, row.title, row.description,
        encodeLastVisit row.lastVisit⟩] := by
    rw [List.filter_append]
    have h1 : (s.urls.filter fun r => !urlConflict (hash row.url) row.url r).filter
        (fun r => [hash row.url].contains r.urlMd5) = [] := by
      rw [List.filter_eq_nil_iff]
      intro r hr
      have h2 := (mem_filterConflict _ _ _ _ hr).1
      simp [List.contains_cons]
      intro hc
      simp [hc] at h2
    rw [h1]
    simp
  have hrep : urlsById (insertUrl hash s row) [hash row.url] =
      [⟨hash row.url, row.url, row.title, row.description,
        decodeLastVisit (encodeLastVisit row.lastVisit)⟩] := by
    show (sortByMd5 (((s.urls.filter fun r => !urlConflict (hash row.url) row.url r) ++
        [(⟨hash row.url, row.url, row.title, row.description,
          encodeLastVisit row.lastVisit⟩ : UrlsTableRow)]).filter
          (fun r => [hash row.url].contains r.urlMd5))).map hydrateUrlRow =
      [⟨hash row.url, row.url, row.title, row.description,
        decodeLastVisit (encodeLastVisit row.lastVisit)⟩]
    rw [hfilter]
    simp [sortByMd5, insertSorted, hydrateUrlRow]
  refine ⟨hrep, ?_, ?_⟩
  · intro e he
    rw [hrep] at he
    simp only [List.mem_singleton] at he
    subst he
    simp only [decodeLastVisit]
    by_cases h0 : encodeLastVisit row.lastVisit = 0
    · simp [h0]
    · simp [h0]
  · simp [insertUrl, encodeLastVisit]

/-- Witness for `C10`: a visit exactly at the Unix epoch reads back as
absent. -/
theorem insertUrl_lastVisit_zero_roundtrip_witness :
    urlsById (insertUrl id emptyStore ⟨"u", none, none, some 0⟩) ["u"] =
      [⟨"u", "u", none, none, none⟩] :=
  (insertUrl_lastVisit_zero_roundtrip id emptyStore ⟨"u", none, none, some 0⟩).1

/-- `C4` counterexample: the index ranks `"b"` before `"a"`, both exist in
the store with `"a"` stored first; `SearchUrls` returns them in store
order `["a", "b"]`, not the index's ranked order `["b", "a"]`. -/
theorem searchUrls_not_index_order :
    (searchUrls demoStore ["b", "a"]).map UrlDbEntity.urlMd5 = ["a", "b"] ∧
    (["a", "b"] : List String) ≠ ["b", "a"] := by
  constructor
  · decide
  · decide

/-- `C4` amended: `SearchUrls` performs no re-sort into the index's ranked
order — its output is invariant under reordering of the ranked hit id
sequence: any two hit lists with the same members produce the identical
result list, so the displayed order comes from the store query alone and
cannot follow the index's relevance ranking; every returned record is
the hydration of a stored row whose id was among the hits. -/
theorem searchUrls_no_resort (s : Store) (ids1 ids2 : List String)
    (h : ∀ a, a ∈ ids1 ↔ a ∈ ids2) :
    searchUrls s ids1 = searchUrls s ids2 ∧
    ∀ e ∈ searchUrls s ids1, ∃ r, r ∈ s.urls ∧ r.urlMd5 ∈ ids1 ∧ e = hydrateUrlRow r := by
  have hcont : ∀ a, ids1.contains a = ids2.contains a := by
    intro a
    by_cases hm : a ∈ ids1
    · show List.elem a ids1 = List.elem a ids2
      rw [List.elem_iff.mpr hm, List.elem_iff.mpr ((h a).mp hm)]
    · have hm2 : a ∉ ids2 := fun hx => hm ((h a).mpr hx)
      have e1 : ids1.contains a = false := by
        cases hc : ids1.contains a
        · rfl
        · exact absurd (List.elem_iff.mp hc) hm
      have e2 : ids2.contains a = false := by
        cases hc : ids2.contains a
        · rfl
        · exact absurd (List.elem_iff.mp hc) hm2
      rw [e1, e2]
  constructor
  · show urlsById s ids1 = urlsById s ids2
    unfold urlsById
    have hfun : (fun r : UrlsTableRow => ids1.contains r.urlMd5) =
        (fun r : UrlsTableRow => ids2.contains r.urlMd5) :=
      funext fun r => hcont r.urlMd5
    rw [hfun]
  · intro e he
    exact (mem_urlsById s ids1 e).mp he

/-- Witness for `C4`'s amended claim: reversing the ranked hit order
leaves the returned list identical — the ranking cannot influence the
displayed order. -/
theorem searchUrls_no_resort_witness :
    searchUrls demoStore ["b", "a"] = searchUrls demoStore ["a", "b"] :=
  (searchUrls_no_resort demoStore ["b", "a"] ["a", "b"]
    (by
      intro a
      simp only [List.mem_cons, List.not_mem_nil, or_false]
      tauto)).1

/-- Errors surfaced by `database/sql` row scanning: `noRows` is
`sql.ErrNoRows`, returned by `row.Scan` when the query matched nothing. -/
inductive SqlError
  | noRows
  deriving Repr, DecidableEq

/-- `persistence.GetLatestTime`: `SELECT visit_time FROM visits WHERE
extractor_name = ? ORDER BY visit_time DESC LIMIT 1`; with no matching
row, `row.Scan` fails with `sql.ErrNoRows`.  The Go value
`time.Unix(ts, 0)` is kept as Unix seconds. -/
def getLatestTime (s : Store) (extractorName : String) : Except SqlError Int :=
  match ((s.visits.filter fun v => v.extractorName == extractorName).map
      (fun v => v.visitTime)).max? with
  | some t => .ok t
  | none => .error .noRows

/-- One extractor in a sync run, with the outcomes of its import calls
supplied as data.  Modelled from the spec: the `populate` package
(`PopulateAll`, `PopulateSinceTime`) is not under `src/`; only the
success or failure of each call (the `error` carries its message)
reaches `populateCmd`'s control flow, and the imports' effect on the
store is not needed by the claims about that flow. -/
structure ExtractorRun where
  name : String
  importFull : Except String Unit
  importSince : Int → Except String Unit

/-- Outcome of `populateCmd`'s sync loop (`cmd/populate.go` lines 58–98):
`earlyExit` is an `os.Exit` fired inside the loop (the `GetLatestTime`
failure path); `done` carries the collected per-source error messages
and the exit status decided after the loop (`1` when any source failed,
`0` meaning the command proceeds). -/
inductive SyncOutcome
  | earlyExit (code : Nat)
  | done (failed : List String) (exitCode : Nat)
  deriving Repr

/-- `errors.Wrap(err, x.GetName()+" error:")` as collected by
`populateCmd`: the wrap message, a colon-space, then the cause. -/
def wrapSourceError (name msg : String) : String :=
  name ++ " error:: " ++ msg

/-- The sync loop of `populateCmd`: skip extractors not matching
`--browser`; with `--latest`, a `GetLatestTime` failure prints and calls
`os.Exit(1)` immediately; an import failure is appended to `errs` and the
loop continues; after the loop the command exits `1` iff any error was
collected. -/
def populateLoop (s : Store) (onlyLatest : Bool) (browserName : String) :
    List ExtractorRun → List String → SyncOutcome
  | [], errs => .done errs (if errs.isEmpty then 0 else 1)
  | x :: rest, errs =>
    if (browserName != "") && (x.name != browserName) then
      populateLoop s onlyLatest browserName rest errs
    else if onlyLatest then
      match getLatestTime s x.name with
      | .error _ => .earlyExit 1
      | .ok since =>
        match x.importSince since with
        | .ok _ => populateLoop s onlyLatest browserName rest errs
        | .error e =>
          populateLoop s onlyLatest browserName rest (errs ++ [wrapSourceError x.name e])
    else
      match x.importFull with
      | .ok _ => populateLoop s onlyLatest browserName rest errs
      | .error e =>
        populateLoop s onlyLatest browserName rest (errs ++ [wrapSourceError x.name e])

/-- `populateCmd`'s sync run: the loop started with an empty error list. -/
def populateSync (s : Store) (onlyLatest : Bool) (browserName : String)
    (xs : List ExtractorRun) : SyncOutcome :=
  populateLoop s onlyLatest browserName xs []

/-- `C2` counterexample: fresh store, `--latest` requested, one chrome
extractor whose imports would all succeed; `GetLatestTime` fails with
`sql.ErrNoRows` and `populateCmd` exits the whole run with status 1 — it
does not fall back to a full import for that source. -/
theorem getLatestTime_noPriorData_aborts :
    getLatestTime emptyStore "chrome" = .error .noRows ∧
    populateSync emptyStore true ""
      [⟨"chrome", .ok (), fun _ => .ok ()⟩] = .earlyExit 1 := by
  exact ⟨rfl, rfl⟩

/-- `C2` amended: when an incremental (`--latest`) import reaches an
extractor that has no stored visits, `GetLatestTime` fails with
`sql.ErrNoRows` and `populateCmd` aborts the entire run with exit status
1 — no remaining extractor is processed and no full-import fallback
happens for that source. -/
theorem populate_latest_aborts_on_no_history (s : Store) (x : ExtractorRun)
    (rest : List ExtractorRun)
    (h : s.visits.filter (fun v => v.extractorName == x.name) = []) :
    getLatestTime s x.name = .error .noRows ∧
    populateSync s true "" (x :: rest) = .earlyExit 1 := by
  have hg : getLatestTime s x.name = .error .noRows := by
    simp [getLatestTime, h]
  refine ⟨hg, ?_⟩
  simp [populateSync, populateLoop, hg]

/-- Witness for `C2`'s amended claim on a concrete fresh store. -/
theorem populate_latest_aborts_witness :
    populateSync emptyStore true ""
      [⟨"vivaldi", .ok (), fun _ => .ok ()⟩] = .earlyExit 1 :=
  (populate_latest_aborts_on_no_history emptyStore
    ⟨"vivaldi", .ok (), fun _ => .ok ()⟩ [] (by rfl)).2

/-- The extractors a sync run actually processes: those the `--browser`
filter does not skip. -/
def selectedRuns (browserName : String) (xs : List ExtractorRun) : List ExtractorRun :=
  xs.filter fun x => !((browserName != "") && (x.name != browserName))

/-- The import operation `populateCmd` runs for one extractor: with
`--latest` it is `PopulateSinceTime` at the extractor's stored cursor,
otherwise `PopulateAll`.  (The `.error` branch of `getLatestTime` is dead
under the no-early-exit hypothesis of the theorem below.) -/
def importResult (s : Store) (onlyLatest : Bool) (x : ExtractorRun) : Except String Unit :=
  if onlyLatest then
    match getLatestTime s x.name with
    | .ok t => x.importSince t
    | .error _ => .ok ()
  else x.importFull

/-- The per-source error messages a sync run collects, in processing
order, each naming its source. -/
def expectedFailures (s : Store) (onlyLatest : Bool) (browserName : String)
    (xs : List ExtractorRun) : List String :=
  (selectedRuns browserName xs).filterMap fun x =>
    match importResult s onlyLatest x with
    | .ok _ => none
    | .error e => some (wrapSourceError x.name e)

/-- One unfolding step of the sync loop on a cons cell. -/
theorem populateLoop_cons (s : Store) (onlyLatest : Bool) (browserName : String)
    (x : ExtractorRun) (rest : List ExtractorRun) (errs : List String) :
    populateLoop s onlyLatest browserName (x :: rest) errs =
      if (browserName != "") && (x.name != browserName) then
        populateLoop s onlyLatest browserName rest errs
      else if onlyLatest then
        match getLatestTime s x.name with
        | .error _ => .earlyExit 1
        | .ok since =>
          match x.importSince since with
          | .ok _ => populateLoop s onlyLatest browserName rest errs
          | .error e =>
            populateLoop s onlyLatest browserName rest (errs ++ [wrapSourceError x.name e])
      else
        match x.importFull with
        | .ok _ => populateLoop s onlyLatest browserName rest errs
        | .error e =>
          populateLoop s onlyLatest browserName rest (errs ++ [wrapSourceError x.name e]) :=
  rfl

/-- The sync loop with an arbitrary accumulated error list: provided no
`GetLatestTime` early exit fires, it finishes with the accumulated plus
the expected per-source failures and the corresponding exit code. -/
theorem populateLoop_spec (s : Store) (onlyLatest : Bool) (browserName : String)
    (xs : List ExtractorRun) (errs : List String)
    (h : onlyLatest = true → ∀ x ∈ selectedRuns browserName xs,
      (getLatestTime s x.name).isOk = true) :
    populateLoop s onlyLatest browserName xs errs =
      .done (errs ++ expectedFailures s onlyLatest browserName xs)
        (if (errs ++ expectedFailures s onlyLatest browserName xs).isEmpty then 0 else 1) := by
  induction xs generalizing errs with
  | nil => simp [populateLoop, expectedFailures, selectedRuns]
  | cons x rest ih =>
    by_cases hskip : ((browserName != "") && (x.name != browserName)) = true
    · have hskip2 : ¬browserName = "" ∧ ¬x.name = browserName := by simpa using hskip
      have hsel : selectedRuns browserName (x :: rest) = selectedRuns browserName rest := by
        simp [selectedRuns, List.filter_cons, hskip2.1, hskip2.2]
      have hexp : expectedFailures s onlyLatest browserName (x :: rest) =
          expectedFailures s onlyLatest browserName rest := by
        simp [expectedFailures, hsel]
      rw [populateLoop_cons, if_pos hskip, hexp]
      exact ih errs fun ho y hy => h ho y (by rw [hsel]; exact hy)
    · have hskip2 : ¬browserName = "" → x.name = browserName := by simpa using hskip
      have hsel : selectedRuns browserName (x :: rest) = x :: selectedRuns browserName rest := by
        by_cases hbn : browserName = ""
        · simp [selectedRuns, List.filter_cons, hbn]
        · simp [selectedRuns, List.filter_cons, hbn, hskip2 hbn]
      have hrest : onlyLatest = true → ∀ y ∈ selectedRuns browserName rest,
          (getLatestTime s y.name).isOk = true := by
        intro ho y hy
        exact h ho y (by rw [hsel]; exact List.mem_cons_of_mem x hy)
      have hexp : expectedFailures s onlyLatest browserName (x :: rest) =
          (match importResult s onlyLatest x with
            | .ok _ => []
            | .error e => [wrapSourceError x.name e]) ++
            expectedFailures s onlyLatest browserName rest := by
        cases himp : importResult s onlyLatest x <;>
          simp [expectedFailures, hsel, himp]
      rw [populateLoop_cons, if_neg hskip, hexp]
      cases onlyLatest with
      | false =>
        rw [if_neg (by decide)]
        have hires : importResult s false x = x.importFull := rfl
        rw [hires]
        cases hif : x.importFull with
        | ok u =>
          exact ih errs hrest
        | error e =>
          show populateLoop s false browserName rest (errs ++ [wrapSourceError x.name e]) =
            .done (errs ++ ([wrapSourceError x.name e] ++
                expectedFailures s false browserName rest))
              (if (errs ++ ([wrapSourceError x.name e] ++
                  expectedFailures s false browserName rest)).isEmpty then 0 else 1)
          rw [← List.append_assoc]
          exact ih _ hrest
      | true =>
        have hx : (getLatestTime s x.name).isOk = true :=
          h rfl x (by rw [hsel]; exact List.mem_cons_self x _)
        obtain ⟨t, ht⟩ : ∃ t, getLatestTime s x.name = .ok t := by
          cases hg : getLatestTime s x.name with
          | ok t => exact ⟨t, rfl⟩
          | error e => rw [hg] at hx; simp [Except.isOk, Except.toBool] at hx
        have hires : importResult s true x = x.importSince t := by
          simp [importResult, ht]
        rw [if_pos rfl, ht, hires]
        show (match x.importSince t with
            | Except.ok _ => populateLoop s true browserName rest errs
            | Except.error e =>
              populateLoop s true browserName rest (errs ++ [wrapSourceError x.name e])) = _
        cases hif : x.importSince t with
        | ok u =>
          exact ih errs hrest
        | error e =>
          show populateLoop s true browserName rest (errs ++ [wrapSourceError x.name e]) =
            .done (errs ++ ([wrapSourceError x.name e] ++
                expectedFailures s true browserName rest))
              (if (errs ++ ([wrapSourceError x.name e] ++
                  expectedFailures s true browserName rest)).isEmpty then 0 else 1)
          rw [← List.append_assoc]
          exact ih _ hrest

/-- `C7`: provided no `--latest` cursor lookup fails (the early-exit path
settled under `C2`), a sync run attempts every selected extractor —
a per-extractor import failure is collected, not fatal — and finishes
reporting the aggregate list of failure messages, each naming its
source, with exit status `1` if at least one source failed and `0` when
all succeed. -/
theorem populate_collects_and_reports (s : Store) (onlyLatest : Bool)
    (browserName : String) (xs : List ExtractorRun)
    (h : onlyLatest = true → ∀ x ∈ selectedRuns browserName xs,
      (getLatestTime s x.name).isOk = true) :
    populateSync s onlyLatest browserName xs =
      .done (expectedFailures s onlyLatest browserName xs)
        (if (expectedFailures s onlyLatest browserName xs).isEmpty then 0 else 1) := by
  have hmain := populateLoop_spec s onlyLatest browserName xs [] h
  simpa [populateSync] using hmain

/-- A sync-run extractor whose imports succeed. -/
def runGood : ExtractorRun := ⟨"chrome", .ok (), fun _ => .ok ()⟩

/-- A sync-run extractor whose imports fail with a locked database. -/
def runBad : ExtractorRun := ⟨"safari", .error "db locked", fun _ => .error "db locked"⟩

/-- Witness for `C7`: one failing source among two makes the run finish
(not abort) with that source named and exit status 1. -/
theorem populate_collects_witness :
    populateSync emptyStore false "" [runGood, runBad] =
      .done ["safari error:: db locked"] 1 := by
  have h := populate_collects_and_reports emptyStore false "" [runGood, runBad]
    (by intro hc; cases hc)
  simpa [expectedFailures, selectedRuns, importResult, runGood, runBad,
    wrapSourceError] using h

/-- The filesystem facts `BuildExtractorList` consults: whether `os.Stat`
on a path succeeds with a directory, and whether `os.Stat` on a plain
file path succeeds (the safari `findDBs` closure). -/
structure FileSys where
  isDir : String → Bool
  fileOk : String → Bool

/-- A discovered extractor instance: the source kind's name and the
history database path it was constructed with (`createExtractor`). -/
structure DiscoveredExtractor where
  name : String
  dbPath : String
  deriving Repr, DecidableEq

/-- One entry of `pathsToTry` in `BuildExtractorList`: a source kind, its
candidate location, and its per-kind database search (which reads the
filesystem and may fail). -/
structure PathSpec where
  name : String
  path : String
  findDBs : FileSys → String → Except String (List String)

/-- The safari `findDBs` closure of `BuildExtractorList`: `os.Stat(s +
"History.db")`, returning that stat error when the file is absent, else
the singleton list containing the database path. -/
def safariFindDBs (fs : FileSys) (s : String) : Except String (List String) :=
  if fs.fileOk (s ++ "History.db") then .ok [s ++ "History.db"]
  else .error "stat: no such file"

/-- `extractors.BuildExtractorList` over its `pathsToTry` entries: a
location that does not stat as a directory is skipped (logged only);
otherwise the per-kind `findDBs` runs, its error is returned as the
function's error, and on success one extractor per found database is
appended to the result. -/
def buildExtractorList (fs : FileSys) :
    List PathSpec → Except String (List DiscoveredExtractor)
  | [] => .ok []
  | x :: rest =>
    if !fs.isDir x.path then buildExtractorList fs rest
    else
      match x.findDBs fs x.path with
      | .error e => .error e
      | .ok dbs =>
        match buildExtractorList fs rest with
        | .error e => .error e
        | .ok more => .ok (dbs.map (fun p => ⟨x.name, p⟩) ++ more)

/-- A filesystem where the safari location is a present directory but its
`History.db` file is absent. -/
def safariDirNoDb : FileSys :=
  ⟨fun p => p == "safdir/", fun _ => false⟩

/-- `C6` counterexample: with the safari location present as a directory
but `History.db` absent, the safari `findDBs` fails on the missing file
and `BuildExtractorList` fails outright — an absent expected database
file does abort discovery. -/
theorem buildExtractorList_fails_on_absent_db :
    safariDirNoDb.isDir "safdir/" = true ∧
    buildExtractorList safariDirNoDb [⟨"safari", "safdir/", safariFindDBs⟩] =
      .error "stat: no such file" := by
  exact ⟨rfl, rfl⟩

/-- `C6` amended: discovery skips locations that do not exist or are not
directories and never fails on their account — whenever every per-kind
`findDBs` on a present directory succeeds, `BuildExtractorList` succeeds
(possibly with an empty or partial list) — but a per-kind `findDBs`
error is propagated, and the safari search errors precisely when
`History.db` is absent under a present location, so a missing expected
database file does make discovery fail. -/
theorem buildExtractorList_amended (fs : FileSys) (specs : List PathSpec)
    (h : ∀ x ∈ specs, fs.isDir x.path = true → (x.findDBs fs x.path).isOk = true) :
    (buildExtractorList fs specs).isOk = true ∧
    ∀ p, fs.fileOk (p ++ "History.db") = false →
      safariFindDBs fs p = .error "stat: no such file" := by
  constructor
  · induction specs with
    | nil => rfl
    | cons x rest ih =>
      have hrest : (buildExtractorList fs rest).isOk = true :=
        ih fun y hy => h y (List.mem_cons_of_mem x hy)
      show (if !fs.isDir x.path then buildExtractorList fs rest
        else match x.findDBs fs x.path with
          | .error e => .error e
          | .ok dbs =>
            match buildExtractorList fs rest with
            | .error e => .error e
            | .ok more => .ok (dbs.map (fun p => (⟨x.name, p⟩ : DiscoveredExtractor)) ++ more)).isOk = true
      cases hdir : fs.isDir x.path with
      | false => simpa [hdir] using hrest
      | true =>
        have hfind : (x.findDBs fs x.path).isOk = true :=
          h x (List.mem_cons_self x rest) hdir
        rw [if_neg (by simp [hdir])]
        cases hf : x.findDBs fs x.path with
        | error e => rw [hf] at hfind; simp [Except.isOk, Except.toBool] at hfind
        | ok dbs =>
          cases hb : buildExtractorList fs rest with
          | error e => rw [hb] at hrest; simp [Except.isOk, Except.toBool] at hrest
          | ok more => rfl
  · intro p hp
    simp [safariFindDBs, hp]

/-- Witness for `C6`'s amended claim: on a filesystem with no present
locations, discovery succeeds with some (empty) list. -/
theorem buildExtractorList_amended_witness :
    (buildExtractorList ⟨fun _ => false, fun _ => false⟩
      [⟨"safari", "safdir/", safariFindDBs⟩]).isOk = true :=
  (buildExtractorList_amended ⟨fun _ => false, fun _ => false⟩
    [⟨"safari", "safdir/", safariFindDBs⟩]
    (fun x _ hdir => by simp at hdir)).1

end BrowserGopher
